import Mathlib

/-!
Shallow embedding of the `generator-connection` repository's core:
`src/lib/NodeDomain.js` (the DomainProxy lifecycle manager) and the
`domainPrefKey` helper of `src/main.js`.

The NodeConnection transport is the external collaborator: we embed
exactly the surface the NodeDomain code consults (`connected()`,
`domains`, `domainEvents`, the listener bus with `on`/`off`/
`getListeners`), as a record of observable state.  Futures (bluebird
promises) are embedded symbolically where the code only stores and
chains them, and denotationally (settle time plus callback applied to
the state at that time) where a claim is about when a chained future
settles.
-/

namespace GenConn

/-- Opaque runtime values passed through the proxy (command arguments,
command results, thrown errors, event payloads). -/
abbrev Val := Nat

/-- A positional-argument sequence, as `Array.prototype.slice.call(arguments)`
captures it. -/
abbrev Args := List Val

/-- Outcome of applying a domain command callable `fn.apply(domain, params)`:
a JavaScript callable either throws synchronously or returns a value (in
practice a result promise, kept opaque here). -/
inductive CmdOutcome where
  | throws (v : Val)
  | returns (r : Val)
deriving Repr, DecidableEq

/-- A command callable stored in `connection.domains[domainName][commandName]`. -/
abbrev Cmd := Args → CmdOutcome

/-- A listener registered on the NodeConnection's event bus, defunctionalized.
`relay bare` is the closure `refreshInterface` installs: it re-emits its
arguments locally under the bare event name.  `closeH` is the constructor's
`close` handler.  `other` stands for any listener installed by other code
sharing the bus. -/
inductive Listener where
  | relay (bare : String)
  | closeH
  | other (tag : Nat)
deriving Repr, DecidableEq

/-- Symbolic futures, covering exactly the promises NodeDomain stores in
`_connectionPromise`: the `connection.connect(true)` future, the reconnection
future a `close` event supplies, and `f.then(this._load)`. -/
inductive Fut where
  | connectF
  | reconnect (n : Nat)
  | thenLoad (f : Fut)
deriving Repr, DecidableEq

/-- Observable state of the NodeConnection collaborator: `connected()`, the
`domains` command table, the `domainEvents` table, and the event bus's
listener registrations in registration order. -/
structure ConnState where
  connected : Bool
  domains : List (String × List (String × Cmd))
  domainEvents : List (String × List String)
  listeners : List (String × Listener)

/-- State of one NodeDomain instance: the fields its constructor initializes
(`_domainName`, `_domainPath`, `_domainLoaded`, `_connectionPromise`) plus
the exclusively owned connection. -/
structure ProxyState where
  domainName : String
  domainPath : String
  domainLoaded : Bool
  connectionPromise : Option Fut
  connection : ConnState

/-- JavaScript object-property lookup `table[key]` over an association list:
`some` the stored value, `none` for `undefined`. -/
def assocLookup (l : List (String × α)) (k : String) : Option α :=
  (l.find? (fun p => p.1 == k)).map (·.2)

/-- `connection.getListeners(key)`: the listeners registered under `key`, in
registration order. -/
def getListeners (c : ConnState) (k : String) : List Listener :=
  (c.listeners.filter (fun p => p.1 == k)).map (·.2)

/-- `connection.on(key, listener)`: appends the listener under `key`. -/
def connOn (c : ConnState) (k : String) (l : Listener) : ConnState :=
  { c with listeners := c.listeners ++ [(k, l)] }

/-- The test `/^name:*/.test(key)` of the regex the constructor builds from
the domain name (assumed free of regex metacharacters, as real domain names
are): the anchored literal `name` must match at the start of the key, and the
trailing `:*` matches zero or more colons, so it never constrains acceptance.
The test therefore accepts exactly the keys having `name` as a prefix. -/
def regexAccepts (name k : String) : Bool :=
  name.data.isPrefixOf k.data

/-- `connection.off(/^name:*/)`: removes every listener whose key the regex
accepts. -/
def connOffDomainPrefix (c : ConnState) (name : String) : ConnState :=
  { c with listeners := c.listeners.filter (fun p => !(regexAccepts name p.1)) }

/-- `NodeDomain.prototype.ready`: `this._domainLoaded && this.connection.connected()`.
State-passing form; the method body contains no assignment. -/
def ready (st : ProxyState) : Bool × ProxyState :=
  (st.domainLoaded && st.connection.connected, st)

/-- What `NodeDomain.prototype.promise` returns: the stored
`_connectionPromise` unchanged, or `Promise.resolve()`, or `Promise.reject()`. -/
inductive PromiseRes where
  | inflight (f : Fut)
  | resolvedNow
  | rejectedNow
deriving Repr, DecidableEq

/-- `NodeDomain.prototype.promise`: returns `_connectionPromise` when set
(a promise object is always truthy), else resolves or rejects by `ready()`. -/
def promise (st : ProxyState) : PromiseRes × ProxyState :=
  match st.connectionPromise with
  | some f => (.inflight f, st)
  | none => if (ready st).1 then (.resolvedNow, st) else (.rejectedNow, st)

/-- A settled future value as `exec`'s inner dispatch produces it:
`Promise.reject()` (the immediately-failed future) or the future the command
callable returned. -/
inductive FutRes where
  | rejectedImm
  | cmdResult (r : Val)
deriving Repr, DecidableEq

/-- Outcome of running `execConnected` in one turn: a synchronous throw
escaping the callable, or a future value. -/
inductive JsOutcome where
  | thrown (v : Val)
  | value (r : FutRes)
deriving Repr, DecidableEq

/-- `connection.domains[this._domainName]` followed by
`domain && domain[name]`: the command callable, or `none` when either lookup
yields `undefined`. -/
def lookupCmd (st : ProxyState) (name : String) : Option Cmd :=
  match assocLookup st.connection.domains st.domainName with
  | some domainCmds => assocLookup domainCmds name
  | none => none

/-- The `execConnected` closure of `NodeDomain.prototype.exec`: looks up the
command in the live table and applies it (`fn.apply(domain, params)`), or
produces `Promise.reject()` when the callable is `undefined`.  A synchronous
throw from the callable escapes. -/
def execConnected (st : ProxyState) (name : String) (params : Args) : JsOutcome :=
  match lookupCmd st name with
  | some fn =>
    match fn params with
    | .throws v => .thrown v
    | .returns r => .value (.cmdResult r)
  | none => .value .rejectedImm

/-- What `exec` hands back when it returns (rather than throws): a settled or
command-produced future, or `this._connectionPromise.then(execConnected)`
with the captured command name and parameters. -/
inductive ExecRes where
  | imm (r : FutRes)
  | deferred (f : Fut) (name : String) (params : Args)
deriving Repr, DecidableEq

/-- Overall outcome of one `exec` call: a synchronous throw (possible only
when the ready-path callable throws) or a returned future. -/
inductive ExecOutcome where
  | throws (v : Val)
  | returns (r : ExecRes)
deriving Repr, DecidableEq

/-- `NodeDomain.prototype.exec`: ready path runs `execConnected` in the same
turn; otherwise a set `_connectionPromise` defers `execConnected` onto it;
otherwise `Promise.reject()`.  State-passing form; the body assigns no field. -/
def exec (st : ProxyState) (name : String) (params : Args) : ExecOutcome × ProxyState :=
  if (ready st).1 then
    match execConnected st name params with
    | .thrown v => (.throws v, st)
    | .value r => (.returns (.imm r), st)
  else
    match st.connectionPromise with
    | some f => (.returns (.deferred f name params), st)
    | none => (.returns (.imm FutRes.rejectedImm), st)

/-- One iteration of the `eventNames.forEach` body of `refreshInterface`:
compute the namespaced key, and install the relay closure only when the
connection currently has zero listeners under that key. -/
def installRelay (name : String) (c : ConnState) (domainEvent : String) : ConnState :=
  let connectionEvent := name ++ ":" ++ domainEvent
  if (getListeners c connectionEvent).length == 0 then
    connOn c connectionEvent (.relay domainEvent)
  else
    c

/-- `NodeDomain.prototype.refreshInterface`: iterates the event names of
`connection.domainEvents[this._domainName]` in order, installing at most one
relay per namespaced key.  `none` models the TypeError `Object.keys` raises
when the domain has no `domainEvents` entry. -/
def refreshInterface (st : ProxyState) : Option ProxyState :=
  match assocLookup st.connection.domainEvents st.domainName with
  | some eventNames =>
    some { st with connection := eventNames.foldl (installRelay st.domainName) st.connection }
  | none => none

/-- The fulfilled branch of `_load`'s promise chain: sets
`_domainLoaded = true`, clears `_connectionPromise` to `null`, then runs
`refreshInterface()`. -/
def loadSuccessBranch (st : ProxyState) : Option ProxyState :=
  refreshInterface { st with domainLoaded := true, connectionPromise := none }

/-- The `.catch` branch of `_load`'s promise chain: its body is a single
`console.error` call, so the proxy and connection state are unchanged. -/
def loadFailureBranch (st : ProxyState) : ProxyState :=
  st

/-- The `close` handler the constructor registers on the connection:
`this.connection.off(domainPrefix)` with `domainPrefix = /^name:*/`, then
`this._domainLoaded = false`, then
`this._connectionPromise = promise.then(this._load)` where `promise` is the
reconnection future delivered with the `close` event. -/
def onCloseHandler (st : ProxyState) (reconnectFut : Fut) : ProxyState :=
  { st with
    connection := connOffDomainPrefix st.connection st.domainName,
    domainLoaded := false,
    connectionPromise := some (Fut.thenLoad reconnectFut) }

/-- The NodeDomain constructor: a fresh NodeConnection (not yet connected,
empty tables) carrying the registered `close` handler, `_domainLoaded = false`,
and `_connectionPromise = connection.connect(true).then(this._load)`. -/
def mkNodeDomain (name path : String) : ProxyState :=
  { domainName := name
    domainPath := path
    domainLoaded := false
    connectionPromise := some (Fut.thenLoad Fut.connectF)
    connection :=
      { connected := false
        domains := []
        domainEvents := []
        listeners := [("close", Listener.closeH)] } }

/-- Emitting a connection event under `key` with arguments `args` runs each
listener registered under `key` in order; each relay closure executes
`this.emitEvent(domainEvent, params)` with the same arguments.  The result
lists the local (bare-name, payload) emissions the proxy produces. -/
def fireConnectionEvent (c : ConnState) (key : String) (args : Args) : List (String × Args) :=
  (getListeners c key).filterMap (fun l =>
    match l with
    | .relay bare => some (bare, args)
    | _ => none)

/-- Denotation of the pending readiness future for deferred dispatch: the
proxy's state at each event-loop time, and the time at which the pending
future settles. -/
structure Timeline where
  stateAt : Nat → ProxyState
  settleTime : Nat

/-- Denotation of `this._connectionPromise.then(execConnected)`: the chained
future settles in the turn its parent settles, running the captured
`execConnected` closure against the program state at that time («at that
later time, not at call time»).  A `thrown` outcome here denotes the chained
future rejecting with the thrown value. -/
def runDeferred (tl : Timeline) (name : String) (params : Args) : Nat × JsOutcome :=
  (tl.settleTime, execConnected (tl.stateAt tl.settleTime) name params)

/-- `N` consecutive `refreshInterface()` calls. -/
def iterateRefresh : Nat → ProxyState → Option ProxyState
  | 0, st => some st
  | n + 1, st => (refreshInterface st).bind (iterateRefresh n)

/-- ASCII code classifier matching the regex class `[a-zA-Z0-9]` of
`src/main.js` over UTF-16 code units. -/
def isAlnumCode (c : Nat) : Bool :=
  (48 ≤ c && c ≤ 57) || (65 ≤ c && c ≤ 90) || (97 ≤ c && c ≤ 122)

/-- Decimal digits (as UTF-16 code units, most significant first) of a
character code, as JavaScript's number-to-string coercion spells it. -/
def decDigits (n : Nat) : List Nat :=
  if h : n < 10 then [48 + n]
  else decDigits (n / 10) ++ [48 + n % 10]
decreasing_by
  exact Nat.div_lt_self (Nat.lt_of_lt_of_le (by decide) (Nat.le_of_not_lt h)) (by decide)

/-- The replacement the callback of `src/main.js` produces for one matched
character: `"_" + char.charCodeAt(0) + "_"`. -/
def escapeChar (c : Nat) : List Nat :=
  95 :: decDigits c ++ [95]

/-- `domainName.replace(/[^a-zA-Z0-9]/g, callback)`: every code unit outside
`[a-zA-Z0-9]` is replaced by its escape, every other code unit is kept. -/
def replaceNonAlnum : List Nat → List Nat
  | [] => []
  | c :: rest => (if isAlnumCode c then [c] else escapeChar c) ++ replaceNonAlnum rest

/-- `exports.domainPrefKey` of `src/main.js`: `domainName && domainName.replace(...)`
— a falsy (empty) string is returned unchanged, otherwise the replacement runs.
Strings are modelled as their UTF-16 code-unit sequences. -/
def domainPrefKey (s : List Nat) : List Nat :=
  if s = [] then s else replaceNonAlnum s

/-! Concrete fixture states and commands used by witnesses and counterexamples. -/

/-- Fixture command: returns its first argument plus one. -/
def incCmd : Cmd := fun ps => .returns (ps.headD 0 + 1)

/-- Fixture command: throws the value 7 synchronously. -/
def boomCmd : Cmd := fun _ => .throws 7

/-- Fixture: a ready proxy for domain "a" with command "inc" and advertised
event "evt". -/
def readySt : ProxyState :=
  { domainName := "a", domainPath := "p", domainLoaded := true,
    connectionPromise := none,
    connection :=
      { connected := true, domains := [("a", [("inc", incCmd)])],
        domainEvents := [("a", ["evt"])], listeners := [] } }

/-- Fixture: a freshly constructed, not yet connected proxy for domain "a"
whose connect-then-load future is still pending. -/
def pendingSt : ProxyState :=
  { domainName := "a", domainPath := "p", domainLoaded := false,
    connectionPromise := some (Fut.thenLoad Fut.connectF),
    connection :=
      { connected := false, domains := [], domainEvents := [], listeners := [] } }

/-- C6: on a ready proxy, executing a command name that is absent from the
domain's command table at dispatch time returns the immediately-failed future,
and in particular the call returns rather than throws. -/
theorem exec_unknown_command_rejects (st : ProxyState) (name : String) (params : Args)
    (hready : (ready st).1 = true) (habsent : lookupCmd st name = none) :
    (exec st name params).1 = .returns (.imm FutRes.rejectedImm) := by
  simp [exec, hready, execConnected, habsent]

/-- C6 witness: on a concrete ready proxy whose table lacks "missing", exec
returns the immediately-failed future. -/
theorem exec_unknown_command_rejects_witness :
    (exec readySt "missing" []).1 = .returns (.imm FutRes.rejectedImm) :=
  exec_unknown_command_rejects readySt "missing" [] rfl rfl

/-- C7: when no readiness future is pending and the proxy is not ready, both
promise() and exec(...) produce the immediately-failed future without waiting
on anything; and when a readiness future is pending, promise() returns exactly
that stored future. -/
theorem promise_exec_no_pending_spec (st : ProxyState) (name : String) (params : Args) :
    (st.connectionPromise = none → (ready st).1 = false →
      (promise st).1 = .rejectedNow ∧
      (exec st name params).1 = .returns (.imm FutRes.rejectedImm)) ∧
    (∀ f, st.connectionPromise = some f → (promise st).1 = .inflight f) := by
  refine ⟨fun hnone hnr => ⟨?_, ?_⟩, fun f hf => ?_⟩
  · simp [promise, hnone, hnr]
  · simp [exec, hnr, hnone]
  · simp [promise, hf]

/-- C9: ready(), promise() and exec(...) are pure observers: the proxy state
after any of the three calls is exactly the state before, so _domainName,
_domainPath, _domainLoaded and _connectionPromise keep their values. -/
theorem observers_frame (st : ProxyState) (name : String) (params : Args) :
    (ready st).2 = st ∧ (promise st).2 = st ∧ (exec st name params).2 = st := by
  refine ⟨rfl, ?_, ?_⟩
  · unfold promise
    cases st.connectionPromise <;> simp
    split <;> rfl
  · unfold exec
    by_cases h : (ready st).1 <;> simp [h]
    · cases hc : execConnected st name params <;> simp
    · cases st.connectionPromise <;> simp

/-- Every code unit of a decimal spelling is an ASCII digit. -/
theorem decDigits_range (n : Nat) : ∀ d ∈ decDigits n, 48 ≤ d ∧ d ≤ 57 := by
  induction n using decDigits.induct with
  | case1 n h =>
    intro d hd
    rw [decDigits, dif_pos h] at hd
    simp only [List.mem_singleton] at hd
    omega
  | case2 n h ih =>
    intro d hd
    rw [decDigits, dif_neg h] at hd
    rcases List.mem_append.mp hd with h1 | h2
    · exact ih d h1
    · simp only [List.mem_singleton] at h2
      have : n % 10 < 10 := Nat.mod_lt n (by decide)
      omega

/-- An ASCII digit code is in the class [a-zA-Z0-9]. -/
theorem isAlnumCode_of_digit (d : Nat) (h1 : 48 ≤ d) (h2 : d ≤ 57) :
    isAlnumCode d = true := by
  simp [isAlnumCode]
  omega

/-- Every code unit produced for one input code unit is alphanumeric or 95. -/
theorem chunk_alphabet (c d : Nat)
    (hd : d ∈ (if isAlnumCode c then [c] else escapeChar c)) :
    isAlnumCode d = true ∨ d = 95 := by
  by_cases hc : isAlnumCode c
  · rw [if_pos hc] at hd
    simp only [List.mem_singleton] at hd
    exact Or.inl (hd ▸ hc)
  · rw [if_neg hc, escapeChar] at hd
    rcases List.mem_cons.mp hd with h | h
    · exact Or.inr h
    · rcases List.mem_append.mp h with h2 | h2
      · have := decDigits_range c d h2
        exact Or.inl (isAlnumCode_of_digit d this.1 this.2)
      · exact Or.inr (List.mem_singleton.mp h2)

/-- replaceNonAlnum is the per-code-unit flat map of the replacement. -/
theorem replaceNonAlnum_eq_flatten (s : List Nat) :
    replaceNonAlnum s
      = (s.map (fun c => if isAlnumCode c then [c] else escapeChar c)).flatten := by
  induction s with
  | nil => rfl
  | cons c rest ih => simp [replaceNonAlnum, ih]

/-- C10: domainPrefKey leaves the falsy (empty) string unchanged; on any
other input it replaces each code unit outside [a-zA-Z0-9] by an underscore,
the code's decimal spelling and an underscore, passes alphanumeric code units
through unchanged, and its whole output stays inside [a-zA-Z0-9_]. -/
theorem domainPrefKey_spec (s : List Nat) :
    domainPrefKey ([] : List Nat) = [] ∧
    (s ≠ [] → domainPrefKey s
      = (s.map (fun c => if isAlnumCode c then [c] else 95 :: decDigits c ++ [95])).flatten) ∧
    (∀ d ∈ domainPrefKey s, isAlnumCode d = true ∨ d = 95) := by
  refine ⟨rfl, fun hne => ?_, fun d hd => ?_⟩
  · rw [domainPrefKey, if_neg hne, replaceNonAlnum_eq_flatten]
    rfl
  · by_cases hs : s = []
    · subst hs
      simp [domainPrefKey] at hd
    · rw [domainPrefKey, if_neg hs, replaceNonAlnum_eq_flatten] at hd
      rcases List.mem_flatten.mp hd with ⟨chunk, hchunk, hdchunk⟩
      rcases List.mem_map.mp hchunk with ⟨c, _, rfl⟩
      exact chunk_alphabet c d hdchunk

/-- Fixture: a ready proxy for domain "a" whose command "boom" throws
synchronously when applied. -/
def throwSt : ProxyState :=
  { domainName := "a", domainPath := "p", domainLoaded := true,
    connectionPromise := none,
    connection :=
      { connected := true, domains := [("a", [("boom", boomCmd)])],
        domainEvents := [("a", [])], listeners := [] } }

/-- C5 counterexample: on a concrete ready proxy whose command "boom" throws,
exec propagates the throw synchronously instead of communicating the failure
through a failed future — the ready path applies the callable with no
try/catch. -/
theorem exec_sync_throw_counterexample :
    (exec throwSt "boom" []).1 = .throws 7 := rfl

/-- C5 (amended): exec throws synchronously exactly when the proxy is ready
and the live table maps the name to a callable that itself throws on these
arguments; in every other circumstance (unknown command, not ready, deferred
dispatch) exec returns a future, and promise always returns a future (the
stored pending one, or a settled one). -/
theorem exec_throw_characterization (st : ProxyState) (name : String) (params : Args) :
    ((∃ v, (exec st name params).1 = .throws v) ↔
      ((ready st).1 = true ∧
        ∃ fn v, lookupCmd st name = some fn ∧ fn params = CmdOutcome.throws v)) ∧
    ((promise st).1 = .resolvedNow ∨ (promise st).1 = .rejectedNow ∨
      ∃ f, (promise st).1 = .inflight f) := by
  constructor
  · constructor
    · rintro ⟨v, hv⟩
      simp only [exec] at hv
      by_cases hready : (ready st).1 = true
      · rw [if_pos hready] at hv
        refine ⟨hready, ?_⟩
        cases hc : lookupCmd st name with
        | none =>
          have he : execConnected st name params = .value FutRes.rejectedImm := by
            simp only [execConnected, hc]
          rw [he] at hv
          exact absurd hv (by simp)
        | some fn =>
          cases hfn : fn params with
          | throws w => exact ⟨fn, w, rfl, hfn⟩
          | returns r =>
            have he : execConnected st name params = .value (FutRes.cmdResult r) := by
              simp only [execConnected, hc, hfn]
            rw [he] at hv
            exact absurd hv (by simp)
      · rw [if_neg hready] at hv
        cases hp : st.connectionPromise with
        | some f => rw [hp] at hv; exact absurd hv (by simp)
        | none => rw [hp] at hv; exact absurd hv (by simp)
    · rintro ⟨hready, fn, v, hc, hfn⟩
      have he : execConnected st name params = .thrown v := by
        simp only [execConnected, hc, hfn]
      refine ⟨v, ?_⟩
      simp only [exec, if_pos hready, he]
  · rw [promise]
    cases st.connectionPromise with
    | some f => exact Or.inr (Or.inr ⟨f, rfl⟩)
    | none =>
      by_cases h : (ready st).1
      · exact Or.inl (by simp [h])
      · exact Or.inr (Or.inl (by simp [h]))

/-- C2 counterexample: the failure branch of the load step does not clear
a present _connectionPromise — on a concrete proxy whose connect-then-load
future is stored, the field is still present after the branch runs, where the
claim requires it to be absent. -/
theorem loadFailure_keeps_pending_counterexample :
    (loadFailureBranch pendingSt).connectionPromise
      = some (Fut.thenLoad Fut.connectF) := rfl

/-- C2 (amended): _connectionPromise is cleared exactly by the load step's
success branch; the failure branch (a single console.error) leaves the proxy
state, including a still-present _connectionPromise, unchanged. -/
theorem pendingReadiness_cleared_only_on_success (st st' : ProxyState)
    (h : loadSuccessBranch st = some st') :
    st'.connectionPromise = none ∧ loadFailureBranch st = st := by
  refine ⟨?_, rfl⟩
  rw [loadSuccessBranch, refreshInterface] at h
  cases hl : assocLookup st.connection.domainEvents st.domainName with
  | some evs =>
    rw [hl] at h
    cases h
    rfl
  | none =>
    rw [hl] at h
    cases h

/-- Fixture: readySt as the load step's success branch leaves it, with the
relay for "evt" installed under the namespaced key. -/
def readyStRefreshed : ProxyState :=
  { domainName := "a", domainPath := "p", domainLoaded := true,
    connectionPromise := none,
    connection :=
      { connected := true, domains := [("a", [("inc", incCmd)])],
        domainEvents := [("a", ["evt"])],
        listeners := [("a:evt", Listener.relay "evt")] } }

/-- C2 witness: on a concrete proxy whose connection advertises its domain,
the success branch yields a state with no pending readiness future, and the
failure branch is the identity. -/
theorem pendingReadiness_cleared_only_on_success_witness :
    readyStRefreshed.connectionPromise = none ∧
    loadFailureBranch readySt = readySt :=
  pendingReadiness_cleared_only_on_success readySt readyStRefreshed rfl

/-- Key-indexed view of filtering out the keys a domain regex accepts, at the
level of the listener association list. -/
theorem filter_key_after_off (L : List (String × Listener)) (name k : String) :
    ((L.filter fun p => !regexAccepts name p.1).filter fun p => p.1 == k)
      = if regexAccepts name k then [] else L.filter fun p => p.1 == k := by
  induction L with
  | nil => cases h : regexAccepts name k <;> simp [h]
  | cons p rest ih =>
    by_cases hk : p.1 = k
    · subst hk
      cases h : regexAccepts name p.1 <;>
        simp [List.filter_cons, h, ih]
    · have hbk : (p.1 == k) = false := by
        cases h : p.1 == k
        · rfl
        · exact absurd (eq_of_beq h) hk
      cases h : regexAccepts name p.1 <;>
        simp [List.filter_cons, h, hbk, ih]

/-- Bulk unsubscription by domain regex, observed key by key: every key the
regex accepts (the domain name is its prefix) loses all its listeners, every
other key keeps its listener list unchanged. -/
theorem getListeners_connOffDomainPrefix (c : ConnState) (name k : String) :
    getListeners (connOffDomainPrefix c name) k
      = if regexAccepts name k then [] else getListeners c k := by
  rw [getListeners, connOffDomainPrefix, getListeners]
  simp only
  rw [filter_key_after_off]
  cases h : regexAccepts name k <;> simp [h]

/-- C1 (amended): the close handler removes exactly the listeners whose key
matches the constructed regex, i.e. whose key has domainName as a prefix —
this covers every key of the form domainName + ":" + event but also keys of
other domains whose names merely begin with domainName; it sets
_domainLoaded to false, so ready() is false immediately after the handler
runs; and it stores the reconnection future chained with the load step as the
new _connectionPromise. -/
theorem onClose_spec (st : ProxyState) (reconnectFut : Fut) :
    (∀ k, getListeners (onCloseHandler st reconnectFut).connection k
        = if regexAccepts st.domainName k then [] else getListeners st.connection k) ∧
    (ready (onCloseHandler st reconnectFut)).1 = false ∧
    (onCloseHandler st reconnectFut).connectionPromise
      = some (Fut.thenLoad reconnectFut) := by
  refine ⟨fun k => ?_, ?_, rfl⟩
  · exact getListeners_connOffDomainPrefix st.connection st.domainName k
  · rw [ready, onCloseHandler]
    simp

/-- C1 counterexample: for domain "a", a listener stored under key "ab:x" —
a key of another domain, not starting with "a:" — is nevertheless removed by
the close handler, because the handler unsubscribes by the regex constructed
from the domain name, which accepts every key having "a" as a prefix. -/
theorem onClose_removes_foreign_key_counterexample :
    regexAccepts "a:" "ab:x" = false ∧
    getListeners
      { connected := true, domains := [], domainEvents := [],
        listeners := [("ab:x", Listener.other 0)] } "ab:x" = [Listener.other 0] ∧
    getListeners (onCloseHandler
      { domainName := "a", domainPath := "p", domainLoaded := true,
        connectionPromise := none,
        connection :=
          { connected := true, domains := [], domainEvents := [],
            listeners := [("ab:x", Listener.other 0)] } }
      (Fut.reconnect 0)).connection "ab:x" = [] := by
  refine ⟨by decide, rfl, ?_⟩
  rw [onCloseHandler]
  rw [getListeners_connOffDomainPrefix]
  rw [if_pos (by decide)]

/-- C3: a call made while the proxy is not ready but a readiness future is
pending returns that future chained with the captured dispatch closure; the
chained future settles no earlier than the pending future does, and the
command lookup runs against the table as it stands at settlement time — so a
command absent at call time but present once loading completes is reached. -/
theorem exec_deferred_spec (st0 : ProxyState) (tl : Timeline) (f : Fut)
    (name : String) (params : Args) (fn : Cmd) (r : Val)
    (hnr : (ready st0).1 = false)
    (hp : st0.connectionPromise = some f)
    (h0 : lookupCmd st0 name = none)
    (hlater : lookupCmd (tl.stateAt tl.settleTime) name = some fn)
    (hfn : fn params = CmdOutcome.returns r) :
    (exec st0 name params).1 = .returns (.deferred f name params) ∧
    execConnected st0 name params = .value FutRes.rejectedImm ∧
    tl.settleTime ≤ (runDeferred tl name params).1 ∧
    (runDeferred tl name params).2 = .value (.cmdResult r) := by
  refine ⟨?_, ?_, Nat.le_refl _, ?_⟩
  · simp [exec, hnr, hp]
  · simp [execConnected, h0]
  · simp [runDeferred, execConnected, hlater, hfn]

/-- C3 witness: a concrete pending proxy with an empty command table defers a
call of "inc"; at settlement time the table (now holding "inc") is consulted
and the command's result comes back. -/
theorem exec_deferred_spec_witness :
    (exec pendingSt "inc" [1]).1
        = .returns (.deferred (Fut.thenLoad Fut.connectF) "inc" [1]) ∧
    execConnected pendingSt "inc" [1] = .value FutRes.rejectedImm ∧
    (3 : Nat) ≤ (runDeferred { stateAt := fun _ => readySt, settleTime := 3 } "inc" [1]).1 ∧
    (runDeferred { stateAt := fun _ => readySt, settleTime := 3 } "inc" [1]).2
        = .value (.cmdResult 2) :=
  exec_deferred_spec pendingSt { stateAt := fun _ => readySt, settleTime := 3 }
    (Fut.thenLoad Fut.connectF) "inc" [1] incCmd 2 rfl rfl rfl rfl rfl

/-- Boolean disequality for strings, from propositional disequality. -/
theorem str_beq_false_of_ne {a b : String} (h : a ≠ b) : (a == b) = false := by
  cases hab : a == b
  · rfl
  · exact absurd (eq_of_beq hab) h

/-- A boolean zero length check means the list is empty. -/
theorem length_beq_zero {α : Type} {l : List α} (h : (l.length == 0) = true) : l = [] := by
  have hl : l.length = 0 := by simpa using h
  exact List.length_eq_zero.mp hl

/-- Registering one listener, observed key by key: only the registered key's
list grows, by that one listener at its end. -/
theorem getListeners_connOn (c : ConnState) (k k' : String) (l : Listener) :
    getListeners (connOn c k l) k'
      = getListeners c k' ++ (if k == k' then [l] else []) := by
  rw [getListeners, connOn, getListeners]
  simp only
  rw [List.filter_append, List.map_append]
  congr 1
  cases h : (k == k') <;> simp [List.filter_cons, h]

/-- Namespaced keys of one domain are injective in the event name. -/
theorem nsKey_inj (name a b : String) (h : name ++ ":" ++ a = name ++ ":" ++ b) :
    a = b := by
  have hd := congrArg String.data h
  simp only [String.data_append] at hd
  have h2 := List.append_cancel_left hd
  cases a with
  | mk da =>
    cases b with
    | mk db => exact congrArg String.mk h2

/-- One forEach step never touches a key that already has a listener. -/
theorem getListeners_installRelay_stable (name e k : String) (c : ConnState)
    (h : getListeners c k ≠ []) :
    getListeners (installRelay name c e) k = getListeners c k := by
  simp only [installRelay]
  split
  · rw [getListeners_connOn]
    have hne : (name ++ ":" ++ e) ≠ k := by
      intro hk
      rename_i hcond
      rw [hk] at hcond
      exact h (length_beq_zero hcond)
    rw [str_beq_false_of_ne hne]
    simp
  · rfl

/-- The whole forEach never touches a key that already has a listener. -/
theorem foldl_installRelay_stable (name : String) (evs : List String) (c : ConnState)
    (k : String) (h : getListeners c k ≠ []) :
    getListeners (evs.foldl (installRelay name) c) k = getListeners c k := by
  induction evs generalizing c with
  | nil => rfl
  | cons e rest ih =>
    rw [List.foldl_cons]
    have hstep := getListeners_installRelay_stable name e k c h
    rw [ih (installRelay name c e) (by rw [hstep]; exact h), hstep]

/-- The forEach installs exactly one relay, carrying the bare event name,
under the namespaced key of an advertised event that had no listener. -/
theorem foldl_installRelay_installs (name : String) (evs : List String) (c : ConnState)
    (ev : String) (hev : ev ∈ evs)
    (h0 : getListeners c (name ++ ":" ++ ev) = []) :
    getListeners (evs.foldl (installRelay name) c) (name ++ ":" ++ ev)
      = [Listener.relay ev] := by
  induction evs generalizing c with
  | nil => cases hev
  | cons e rest ih =>
    rw [List.foldl_cons]
    by_cases he : e = ev
    · subst he
      have hinst : getListeners (installRelay name c e) (name ++ ":" ++ e)
          = [Listener.relay e] := by
        simp only [installRelay]
        rw [if_pos (by rw [h0]; rfl), getListeners_connOn, h0]
        simp
      rw [foldl_installRelay_stable name rest _ _ (by rw [hinst]; simp), hinst]
    · have hkeys : (name ++ ":" ++ e) ≠ (name ++ ":" ++ ev) :=
        fun hk => he (nsKey_inj name e ev hk)
      have hev' : ev ∈ rest := by
        cases hev with
        | head => exact absurd rfl he
        | tail _ htail => exact htail
      refine ih (installRelay name c e) hev' ?_
      simp only [installRelay]
      split
      · rw [getListeners_connOn, h0, str_beq_false_of_ne hkeys]
        rfl
      · exact h0

/-- When every advertised key already has a listener, the forEach changes
nothing at all. -/
theorem foldl_installRelay_id (name : String) (evs : List String) (c : ConnState)
    (h : ∀ e ∈ evs, getListeners c (name ++ ":" ++ e) ≠ []) :
    evs.foldl (installRelay name) c = c := by
  induction evs with
  | nil => rfl
  | cons e rest ih =>
    rw [List.foldl_cons]
    have hcond : ¬(((getListeners c (name ++ ":" ++ e)).length == 0) = true) := by
      intro hcond
      exact h e (List.mem_cons_self e rest) (length_beq_zero hcond)
    have hc : installRelay name c e = c := by
      simp only [installRelay]
      rw [if_neg hcond]
    rw [hc]
    exact ih (fun e' he' => h e' (List.mem_cons_of_mem _ he'))

/-- The forEach touches only the listener table, never the connection's other
observable state. -/
theorem foldl_installRelay_fields (name : String) (evs : List String) (c : ConnState) :
    (evs.foldl (installRelay name) c).connected = c.connected ∧
    (evs.foldl (installRelay name) c).domains = c.domains ∧
    (evs.foldl (installRelay name) c).domainEvents = c.domainEvents := by
  induction evs generalizing c with
  | nil => exact ⟨rfl, rfl, rfl⟩
  | cons e rest ih =>
    rw [List.foldl_cons]
    have hstep : (installRelay name c e).connected = c.connected ∧
        (installRelay name c e).domains = c.domains ∧
        (installRelay name c e).domainEvents = c.domainEvents := by
      simp only [installRelay]
      split
      · exact ⟨rfl, rfl, rfl⟩
      · exact ⟨rfl, rfl, rfl⟩
    obtain ⟨h1, h2, h3⟩ := ih (installRelay name c e)
    exact ⟨h1.trans hstep.1, h2.trans hstep.2.1, h3.trans hstep.2.2⟩

/-- The forEach only appends listeners: the old registration list is a prefix
of the new one, so no previously installed listener is removed. -/
theorem foldl_installRelay_listeners_grow (name : String) (evs : List String)
    (c : ConnState) :
    c.listeners <+: (evs.foldl (installRelay name) c).listeners := by
  induction evs generalizing c with
  | nil => exact List.prefix_refl _
  | cons e rest ih =>
    rw [List.foldl_cons]
    refine List.IsPrefix.trans ?_ (ih (installRelay name c e))
    simp only [installRelay]
    split
    · rw [connOn]
      exact List.prefix_append _ _
    · exact List.prefix_refl _

/-- refreshInterface on a domain with a domainEvents entry: the connection's
listener table is the forEach fold, nothing else changes. -/
theorem refreshInterface_eq (st : ProxyState) (evs : List String)
    (hevs : assocLookup st.connection.domainEvents st.domainName = some evs) :
    refreshInterface st
      = some { st with
          connection := evs.foldl (installRelay st.domainName) st.connection } := by
  rw [refreshInterface, hevs]

/-- Once every advertised key has a listener, any number of further
refreshInterface calls returns the state unchanged. -/
theorem iterateRefresh_saturated (M : Nat) (st : ProxyState) (evs : List String)
    (hevs : assocLookup st.connection.domainEvents st.domainName = some evs)
    (hsat : ∀ e ∈ evs, getListeners st.connection (st.domainName ++ ":" ++ e) ≠ []) :
    iterateRefresh M st = some st := by
  induction M with
  | zero => rfl
  | succ m ih =>
    rw [iterateRefresh, refreshInterface_eq st evs hevs,
      foldl_installRelay_id st.domainName evs st.connection hsat]
    exact ih

/-- C4: with the advertised event set unchanged and no relays yet installed,
any number N of refreshInterface calls, N at least 1, succeeds and leaves
exactly one relay listener per namespaced event key — never zero, never more
than one — and never removes a previously registered listener (the old
registration list stays a prefix of the new one). -/
theorem refreshInterface_idempotent (st : ProxyState) (evs : List String) (N : Nat)
    (hevs : assocLookup st.connection.domainEvents st.domainName = some evs)
    (h0 : ∀ ev ∈ evs, getListeners st.connection (st.domainName ++ ":" ++ ev) = [])
    (hN : 1 ≤ N) :
    ∃ st', iterateRefresh N st = some st' ∧
      (∀ ev ∈ evs, getListeners st'.connection (st.domainName ++ ":" ++ ev)
          = [Listener.relay ev]) ∧
      st.connection.listeners <+: st'.connection.listeners := by
  obtain ⟨M, rfl⟩ : ∃ M, N = M + 1 := ⟨N - 1, by omega⟩
  refine ⟨{ st with
      connection := evs.foldl (installRelay st.domainName) st.connection },
    ?_, fun ev hev => ?_, ?_⟩
  · rw [iterateRefresh, refreshInterface_eq st evs hevs]
    show iterateRefresh M _ = _
    apply iterateRefresh_saturated M _ evs
    · show assocLookup (evs.foldl (installRelay st.domainName) st.connection).domainEvents
          st.domainName = some evs
      rw [(foldl_installRelay_fields st.domainName evs st.connection).2.2]
      exact hevs
    · intro e he
      show getListeners (evs.foldl (installRelay st.domainName) st.connection)
          (st.domainName ++ ":" ++ e) ≠ []
      rw [foldl_installRelay_installs st.domainName evs st.connection e he (h0 e he)]
      simp
  · exact foldl_installRelay_installs st.domainName evs st.connection ev hev (h0 ev hev)
  · exact foldl_installRelay_listeners_grow st.domainName evs st.connection

/-- C4 witness: two refreshInterface calls on a concrete proxy advertising one
event leave exactly the single relay installed and keep the (empty) prior
listener list as a prefix. -/
theorem refreshInterface_idempotent_witness :
    ∃ st', iterateRefresh 2 readySt = some st' ∧
      (∀ ev ∈ ["evt"], getListeners st'.connection (readySt.domainName ++ ":" ++ ev)
          = [Listener.relay ev]) ∧
      readySt.connection.listeners <+: st'.connection.listeners :=
  refreshInterface_idempotent readySt ["evt"] 2 rfl (by decide) (by decide)

/-- C8: after refreshInterface installs the relay for an advertised event that
had no listener, firing the namespaced connection event with any argument
sequence produces exactly one local emission, under the bare event name, with
exactly that argument sequence. -/
theorem relay_emits_once (st st' : ProxyState) (evs : List String) (ev : String)
    (args : Args)
    (hevs : assocLookup st.connection.domainEvents st.domainName = some evs)
    (hev : ev ∈ evs)
    (h0 : getListeners st.connection (st.domainName ++ ":" ++ ev) = [])
    (hr : refreshInterface st = some st') :
    fireConnectionEvent st'.connection (st.domainName ++ ":" ++ ev) args
      = [(ev, args)] := by
  rw [refreshInterface_eq st evs hevs] at hr
  cases hr
  rw [fireConnectionEvent,
    foldl_installRelay_installs st.domainName evs st.connection ev hev h0]
  rfl

/-- C8 witness: on the concrete refreshed proxy, firing "a:evt" with payload
[5] emits the local event "evt" once with payload [5]. -/
theorem relay_emits_once_witness :
    fireConnectionEvent readyStRefreshed.connection
        (readySt.domainName ++ ":" ++ "evt") [5] = [("evt", [5])] :=
  relay_emits_once readySt readyStRefreshed ["evt"] "evt" [5] rfl (by decide) rfl rfl

end GenConn
